import Mathlib

/-
  Verification development for the hthpool worker-pool library.

  The embedding models the bounded ring-buffer worklist and the pool
  controller of src/hthpool.c, plus the variant worklist operations of
  src/worklist.c.  Machine integers are modelled as Nat/Int; the work
  items are opaque values of a type parameter.  Mutex/condvar traffic is
  recorded as an explicit trace of lock events so that lock-discipline
  statements can be settled on the code's straight-line paths.
-/

namespace Hthpool

/-- Lock and callback events emitted along a single execution path of
an operation, in program order (from the pthread calls in the source). -/
inductive LockEv : Type
  | lockTail | unlockTail | lockHead | unlockHead
  | callFullEvent | callEmptyEvent
  | waitNonfull | waitNonempty
deriving DecidableEq, Repr

/-- `struct status` of src/hthpool.c: stop flag plus the counts of
producers/consumers parked at saturation. -/
structure status_t where
  stop : Bool
  adding : Nat
  taking : Nat
deriving DecidableEq, Repr

/-- `struct worklist_attr`: saturation-event configuration. -/
structure worklist_attr (α : Type) where
  trigger : Bool
  concurrency : Nat
  empty_event : α
  full_event : α
deriving DecidableEq, Repr

/-- `struct worklist` of src/hthpool.c: ring storage (an array modelled
as a function on indices), sentinel indices, size, status and the
(possibly absent) attribute block. -/
structure worklist (α : Type) where
  queue : Nat → α
  head : Nat
  tail : Nat
  qsize : Nat
  status : status_t
  attr : Option (worklist_attr α)

/-- `DEFAULT_SIZE` of src/hthpool.c. -/
def DEFAULT_SIZE : Nat := 65533

/-- `WL_SIZE` of src/hthpool.c. -/
def WL_SIZE : Nat := 4094

/-- The empty predicate of the ring: `(head + 1) % qsize == tail`. -/
def empty (wl : worklist α) : Prop := (wl.head + 1) % wl.qsize = wl.tail

/-- The full predicate of the ring: `(tail + 1) % qsize == head`. -/
def full (wl : worklist α) : Prop := (wl.tail + 1) % wl.qsize = wl.head

instance (wl : worklist α) : Decidable (empty wl) := by unfold empty; infer_instance

instance (wl : worklist α) : Decidable (full wl) := by unfold full; infer_instance

/-- `worklist_init` of src/hthpool.c: substitutes the default size for 0,
sets the sentinel indices to (0, 1), `qsize = size + 2`, clears the
status and copies the attribute block.  The malloc'd ring contents are
indeterminate, so the initial array is a parameter. -/
def worklist_init (size : Nat) (attr : worklist_attr α) (initq : Nat → α) :
    worklist α :=
  let size := if size = 0 then DEFAULT_SIZE else size
  { queue := initq
    head := 0
    tail := 1
    qsize := size + 2
    status := { stop := false, adding := 0, taking := 0 }
    attr := some attr }

/-- `worklist_reset` of src/hthpool.c: indices back to (0, 1), status
cleared, ring memset to zero.  The attribute block is not touched. -/
def worklist_reset [Inhabited α] (wl : worklist α) : worklist α :=
  { wl with
    head := 0
    tail := 1
    status := { stop := false, adding := 0, taking := 0 }
    queue := fun _ => default }

/-- `worklist_stop` of src/hthpool.c: sets the stop flag (under both
mutexes) and broadcasts both condition variables. -/
def worklist_stop (wl : worklist α) : worklist α :=
  { wl with status := { wl.status with stop := true } }

/-- Result of `worklist_add` in src/hthpool.c: 0 on success, -1 when the
stop flag is observed while the ring is full, or the thread parks on
`cond_nonfull` (blocked). -/
inductive AddResult : Type
  | ok | stopped | blocked
deriving DecidableEq, Repr

/-- Result of `worklist_take` in src/hthpool.c: the polled item, the
distinguished empty item when aborted by stop, or the thread parks on
`cond_nonempty` (blocked). -/
inductive TakeResult (α : Type) : Type
  | got : α → TakeResult α
  | stopped
  | blocked
deriving DecidableEq, Repr

/-- Outcome of a single worklist operation: resulting state, result
value, the saturation callback invoked on this path (if any), and the
trace of lock events along the path. -/
structure OpOut (α ρ : Type) where
  wl : worklist α
  res : ρ
  fired : Option α
  trace : List LockEv

/-- First full-loop iteration of `worklist_add`: `wl->status.adding++`. -/
def addRegistered (wl : worklist α) : worklist α :=
  { wl with status := { wl.status with adding := wl.status.adding + 1 } }

/-- The saturation callback invoked by `worklist_add` on its first full
iteration: `full_event` when the attr is present, the trigger is set and
the incremented `adding` equals `attr->concurrency`. -/
def addFired (wl : worklist α) : Option α :=
  match wl.attr with
  | some a =>
      if a.trigger ∧ wl.status.adding + 1 = a.concurrency then some a.full_event
      else none
  | none => none

/-- Lock events of the full-event handoff in src/hthpool.c: the tail
mutex is released, the callback runs with neither mutex held, then the
tail mutex is reacquired. -/
def addEvTrace (wl : worklist α) : List LockEv :=
  match addFired wl with
  | some _ => [LockEv.unlockTail, LockEv.callFullEvent, LockEv.lockTail]
  | none => []

/-- `worklist_add` of src/hthpool.c, one sequential observation:
if the ring is full the caller registers (increments `adding`), possibly
fires `full_event`, then either fails with -1 if the stop flag is set or
parks on `cond_nonfull`; otherwise it writes `queue[tail]`, advances
`tail = (tail + 1) % qsize` and signals `cond_nonempty`. -/
def worklist_add (wl : worklist α) (item : α) : OpOut α AddResult :=
  if (wl.tail + 1) % wl.qsize = wl.head then
    if wl.status.stop then
      { wl := addRegistered wl
        res := AddResult.stopped
        fired := addFired wl
        trace := LockEv.lockTail :: (addEvTrace wl ++ [LockEv.unlockTail]) }
    else
      { wl := addRegistered wl
        res := AddResult.blocked
        fired := addFired wl
        trace := LockEv.lockTail :: (addEvTrace wl ++ [LockEv.waitNonfull]) }
  else
    { wl := { wl with
              queue := Function.update wl.queue wl.tail item
              tail := (wl.tail + 1) % wl.qsize }
      res := AddResult.ok
      fired := none
      trace := [LockEv.lockTail, LockEv.unlockTail] }

/-- First empty-loop iteration of `worklist_take`: `wl->status.taking++`. -/
def takeRegistered (wl : worklist α) : worklist α :=
  { wl with status := { wl.status with taking := wl.status.taking + 1 } }

/-- The saturation callback invoked by `worklist_take` on its first
empty iteration, symmetric to `addFired`. -/
def takeFired (wl : worklist α) : Option α :=
  match wl.attr with
  | some a =>
      if a.trigger ∧ wl.status.taking + 1 = a.concurrency then some a.empty_event
      else none
  | none => none

/-- Lock events of the empty-event handoff in src/hthpool.c. -/
def takeEvTrace (wl : worklist α) : List LockEv :=
  match takeFired wl with
  | some _ => [LockEv.unlockHead, LockEv.callEmptyEvent, LockEv.lockHead]
  | none => []

/-- `worklist_take` of src/hthpool.c, one sequential observation:
if the ring is empty the caller registers (increments `taking`),
possibly fires `empty_event`, then either returns the empty item if the
stop flag is set or parks on `cond_nonempty`; otherwise it advances
`head = (head + 1) % qsize`, reads `queue[head]` and signals
`cond_nonfull`. -/
def worklist_take (wl : worklist α) : OpOut α (TakeResult α) :=
  if (wl.head + 1) % wl.qsize = wl.tail then
    if wl.status.stop then
      { wl := takeRegistered wl
        res := TakeResult.stopped
        fired := takeFired wl
        trace := LockEv.lockHead :: (takeEvTrace wl ++ [LockEv.unlockHead]) }
    else
      { wl := takeRegistered wl
        res := TakeResult.blocked
        fired := takeFired wl
        trace := LockEv.lockHead :: (takeEvTrace wl ++ [LockEv.waitNonempty]) }
  else
    { wl := { wl with head := (wl.head + 1) % wl.qsize }
      res := TakeResult.got (wl.queue ((wl.head + 1) % wl.qsize))
      fired := none
      trace := [LockEv.lockHead, LockEv.unlockHead] }

/-- Number of stored items: `(tail - head - 1) mod qsize`, written with
the wraparound made explicit over Nat. -/
def count (wl : worklist α) : Nat :=
  (wl.tail + wl.qsize - (wl.head + 1)) % wl.qsize

/-- The stored items in FIFO order: slots `head+1, head+2, ...` up to
(and excluding) the tail sentinel. -/
def toList (wl : worklist α) : List α :=
  (List.range (count wl)).map (fun i => wl.queue ((wl.head + 1 + i) % wl.qsize))

/-- Structural invariant of a live worklist: at least the two sentinel
slots plus one data slot, in-range indices, and distinct sentinels. -/
def Inv (wl : worklist α) : Prop :=
  3 ≤ wl.qsize ∧ wl.head < wl.qsize ∧ wl.tail < wl.qsize ∧ wl.head ≠ wl.tail

instance (wl : worklist α) : Decidable (Inv wl) := by unfold Inv; infer_instance

end Hthpool

namespace WorklistC

open Hthpool (worklist LockEv OpOut addRegistered takeRegistered)

/-- Result of `worklist_add` in src/worklist.c: `STAT_OK`, `STAT_TERM`
when stop is observed while full, a park on `cond_nonfull`, or the
undefined behaviour of reading `wl->attr->concurrency` through a NULL
`wl->attr`. -/
inductive AddResult : Type
  | okStat | term | blocked | nullDeref
deriving DecidableEq, Repr

/-- Result of `worklist_take` in src/worklist.c, symmetric to the add
side (`WL_EMPTYITEM` stands for the stop return). -/
inductive TakeResult (α : Type) : Type
  | got : α → TakeResult α
  | emptyItem
  | blocked
  | nullDeref
deriving DecidableEq, Repr

/-- `worklist_add` of src/worklist.c, one sequential observation.  When
the ring is full the first iteration runs under `if (!wl->attr)`: with
`attr == NULL` it increments `adding` and then reads
`wl->attr->concurrency`, dereferencing NULL; with `attr` present the
whole registration branch is skipped (no increment, no event) and the
thread either fails with `STAT_TERM` on stop or parks on
`cond_nonfull`.  When the ring is not full the item is written at
`tail`, which is advanced mod `qsize`. -/
def worklist_add (wl : worklist α) (item : α) : OpOut α AddResult :=
  if (wl.tail + 1) % wl.qsize = wl.head then
    match wl.attr with
    | none =>
        { wl := addRegistered wl
          res := AddResult.nullDeref
          fired := none
          trace := [LockEv.lockTail] }
    | some _ =>
        if wl.status.stop then
          { wl := wl
            res := AddResult.term
            fired := none
            trace := [LockEv.lockTail, LockEv.unlockTail] }
        else
          { wl := wl
            res := AddResult.blocked
            fired := none
            trace := [LockEv.lockTail, LockEv.waitNonfull] }
  else
    { wl := { wl with
              queue := Function.update wl.queue wl.tail item
              tail := (wl.tail + 1) % wl.qsize }
      res := AddResult.okStat
      fired := none
      trace := [LockEv.lockTail, LockEv.unlockTail] }

/-- `worklist_take` of src/worklist.c, one sequential observation,
symmetric to `WorklistC.worklist_add` (guard `if (!wl->attr)` around the
`taking` increment and the NULL read of `wl->attr->concurrency`). -/
def worklist_take (wl : worklist α) : OpOut α (TakeResult α) :=
  if (wl.head + 1) % wl.qsize = wl.tail then
    match wl.attr with
    | none =>
        { wl := takeRegistered wl
          res := TakeResult.nullDeref
          fired := none
          trace := [LockEv.lockHead] }
    | some _ =>
        if wl.status.stop then
          { wl := wl
            res := TakeResult.emptyItem
            fired := none
            trace := [LockEv.lockHead, LockEv.unlockHead] }
        else
          { wl := wl
            res := TakeResult.blocked
            fired := none
            trace := [LockEv.lockHead, LockEv.waitNonempty] }
  else
    { wl := { wl with head := (wl.head + 1) % wl.qsize }
      res := TakeResult.got (wl.queue ((wl.head + 1) % wl.qsize))
      fired := none
      trace := [LockEv.lockHead, LockEv.unlockHead] }

/-- The lock-event sequence of the saturation handoff as written at
src/worklist.c lines 145-149 (add side): release the tail mutex,
acquire the head mutex, invoke `full_event`, release the head mutex,
reacquire the tail mutex.  In the source this block is guarded by the
inverted `!wl->attr` test, so it is only reachable through the NULL
dereference; the sequence itself is recorded here as written. -/
def fullEventHandoffTrace : List LockEv :=
  [LockEv.lockTail, LockEv.unlockTail, LockEv.lockHead, LockEv.callFullEvent,
   LockEv.unlockHead, LockEv.lockTail, LockEv.unlockTail]

/-- The lock-event sequence of the empty-event handoff as written at
src/worklist.c lines 190-194 (take side). -/
def emptyEventHandoffTrace : List LockEv :=
  [LockEv.lockHead, LockEv.unlockHead, LockEv.lockTail, LockEv.callEmptyEvent,
   LockEv.unlockTail, LockEv.lockHead, LockEv.unlockHead]

end WorklistC

namespace Hthpool

/-- `struct hthpool` of src/hthpool.c: the worklist, the worker count
and the pause/resume bookkeeping.  Thread handles and pthread
primitives carry no modelled state. -/
structure hthpool (α : Type) where
  wl : worklist α
  thread_num : Nat
  stopped_threads : Nat
  blocked_threads : Nat
  stop : Bool
  close : Bool
  empty_event : α
  full_event : α

/-- `hthpool_register`: installs the saturation callbacks on the pool
struct (and only there). -/
def hthpool_register (p : hthpool α) (etask ftask : α) : hthpool α :=
  { p with empty_event := etask, full_event := ftask }

/-- Environment outcomes of the fallible steps inside `hthpool_init`:
the mallocs, the synchronization-variable initializations and the
thread spawns, plus the indeterminate malloc'd content of the `stop`
field, which `hthpool_init` never assigns. -/
structure InitEnv where
  malloc_pool : Bool
  malloc_wl : Bool
  wl_sync : Bool
  wl_alloc : Bool
  pool_sync : Bool
  malloc_threads : Bool
  spawn : Bool
  garbage_stop : Bool
deriving DecidableEq, Repr

/-- How `hthpool_init` ends: a handle returned to the caller, a NULL
return, or process termination via `exit`. -/
inductive InitOutcome (α : Type) : Type
  | handle : hthpool α → InitOutcome α
  | nullHandle
  | exitFailure

/-- Return code of `worklist_init` in src/hthpool.c: -1 when the
synchronization variables cannot be created, -2 when the ring or attr
allocation fails, 0 otherwise. -/
def worklist_init_ret (wl_sync wl_alloc : Bool) : Int :=
  if !wl_sync then -1 else if !wl_alloc then -2 else 0

/-- `hthpool_init` of src/hthpool.c.  Control flow from the source:
only `num < 0` is rejected with a NULL return; a failed pool or
worklist malloc, failed synchronization-variable initialization, a
nonzero worklist return code, a failed thread-array malloc or a failed
`pthread_create` all call `exit(EXIT_FAILURE)`.  The worklist is built
with `WL_SIZE` and an attr carrying `concurrency = num`, trigger set,
and the registered events.  The fields `stopped_threads`,
`blocked_threads` and `close` are initialized; the `stop` field is
never written and keeps the malloc'd content. -/
def hthpool_init (num : Int) (etask ftask : α) (env : InitEnv)
    (initq : Nat → α) : InitOutcome α :=
  if num < 0 then InitOutcome.nullHandle
  else if !env.malloc_pool then InitOutcome.exitFailure
  else if !env.malloc_wl then InitOutcome.exitFailure
  else
    let attr : worklist_attr α :=
      { trigger := true, concurrency := num.toNat
        empty_event := etask, full_event := ftask }
    let wlret := worklist_init_ret env.wl_sync env.wl_alloc
    if !env.pool_sync then InitOutcome.exitFailure
    else if wlret ≠ 0 ∨ !env.malloc_threads then InitOutcome.exitFailure
    else if !env.spawn then InitOutcome.exitFailure
    else InitOutcome.handle
      { wl := worklist_init WL_SIZE attr initq
        thread_num := num.toNat
        stopped_threads := 0
        blocked_threads := 0
        stop := env.garbage_stop
        close := false
        empty_event := etask
        full_event := ftask }

/-- Projection of a successful `hthpool_init` outcome. -/
def getHandle : InitOutcome α → Option (hthpool α)
  | InitOutcome.handle p => some p
  | _ => none

/-- The state updates `hthpool_destroy` performs before joining the
workers: under the pause mutex, `close = 1` and
`blocked_threads = thread_num`, then `cond_allow_go` is broadcast.
The worklist (including its stop flag) is not touched until after the
joins. -/
def hthpool_destroy (p : hthpool α) : hthpool α :=
  { p with close := true, blocked_threads := p.thread_num }

/-- `hthpool_continue`: under the pause mutex, clear the stop flag,
reset the counters for a fresh round and reset the worklist; the
worklist attr block is left as built at init time. -/
def hthpool_continue [Inhabited α] (p : hthpool α) : hthpool α :=
  { p with
    stop := false
    stopped_threads := 0
    blocked_threads := p.thread_num
    wl := worklist_reset p.wl }

/-- `hthpool_hard_stop`: set the pool stop flag and stop the worklist
(flag set plus broadcast of both its condition variables). -/
def hthpool_hard_stop (p : hthpool α) : hthpool α :=
  { p with stop := true, wl := worklist_stop p.wl }

/-- `hthpool_soft_stop`: set the pool stop flag only. -/
def hthpool_soft_stop (p : hthpool α) : hthpool α :=
  { p with stop := true }

/-- `hthpool_submit`: delegate to `worklist_add`. -/
def hthpool_submit (p : hthpool α) (item : α) :
    hthpool α × AddResult :=
  let o := worklist_add p.wl item
  ({ p with wl := o.wl }, o.res)

/-- A producer/consumer operation on the worklist. -/
inductive Op (α : Type) : Type
  | add : α → Op α
  | take
deriving DecidableEq, Repr

/-- Run a sequence of operations against the ring worklist, collecting
the successfully taken items in order.  A blocked operation leaves the
ring contents unchanged (only the saturation counters move). -/
def ringRun (wl : worklist α) : List (Op α) → worklist α × List α
  | [] => (wl, [])
  | Op.add a :: ops => ringRun (worklist_add wl a).wl ops
  | Op.take :: ops =>
      match (worklist_take wl).res with
      | TakeResult.got x =>
          ((ringRun (worklist_take wl).wl ops).1,
           x :: (ringRun (worklist_take wl).wl ops).2)
      | TakeResult.stopped => ringRun (worklist_take wl).wl ops
      | TakeResult.blocked => ringRun (worklist_take wl).wl ops

/-- Modelled from the spec: a bounded FIFO queue over lists with
capacity `cap` (the abstract model the ring is claimed to refine).
An add appends at the back when there is room and otherwise leaves the
queue unchanged; a take removes and returns the front when the queue is
nonempty. -/
def fifoRun (cap : Nat) (q : List α) : List (Op α) → List α × List α
  | [] => (q, [])
  | Op.add a :: ops =>
      fifoRun cap (if q.length < cap then q ++ [a] else q) ops
  | Op.take :: ops =>
      match q with
      | [] => fifoRun cap [] ops
      | x :: rest =>
          ((fifoRun cap rest ops).1, x :: (fifoRun cap rest ops).2)

/-- Mutex state along a trace: (tail mutex held, head mutex held). -/
def stepLock : Bool × Bool → LockEv → Bool × Bool
  | (_, h), LockEv.lockTail => (true, h)
  | (_, h), LockEv.unlockTail => (false, h)
  | (t, _), LockEv.lockHead => (t, true)
  | (t, _), LockEv.unlockHead => (t, false)
  | s, _ => s

/-- Checks that every saturation-callback invocation along a trace runs
with the caller's own mutex released and the opposite side's mutex held
(tail side for `full_event`, head side for `empty_event`). -/
def oppositeHeldAtCalls : Bool × Bool → List LockEv → Bool
  | _, [] => true
  | s, LockEv.callFullEvent :: rest =>
      (!s.1 && s.2) && oppositeHeldAtCalls s rest
  | s, LockEv.callEmptyEvent :: rest =>
      (s.1 && !s.2) && oppositeHeldAtCalls s rest
  | s, e :: rest => oppositeHeldAtCalls (stepLock s e) rest

/-- Checks that every saturation-callback invocation along a trace runs
with neither mutex held. -/
def neitherHeldAtCalls : Bool × Bool → List LockEv → Bool
  | _, [] => true
  | s, LockEv.callFullEvent :: rest =>
      (!s.1 && !s.2) && neitherHeldAtCalls s rest
  | s, LockEv.callEmptyEvent :: rest =>
      (!s.1 && !s.2) && neitherHeldAtCalls s rest
  | s, e :: rest => neitherHeldAtCalls (stepLock s e) rest

/- ------------------------------------------------------------------
   Helper lemmas about the ring measures
   ------------------------------------------------------------------ -/

variable {α : Type}

theorem toList_length (wl : worklist α) : (toList wl).length = count wl := by
  simp [toList]

theorem count_lt (wl : worklist α) (hq : 0 < wl.qsize) : count wl < wl.qsize :=
  Nat.mod_lt _ hq

theorem count_eq (wl : worklist α) (hInv : Inv wl) :
    count wl = if wl.head < wl.tail then wl.tail - wl.head - 1
               else wl.tail + wl.qsize - wl.head - 1 := by
  obtain ⟨h3, hh, ht, hne⟩ := hInv
  unfold count
  by_cases hc : wl.head < wl.tail
  · rw [if_pos hc]
    have he : wl.tail + wl.qsize - (wl.head + 1)
        = wl.qsize + (wl.tail - wl.head - 1) := by omega
    rw [he, Nat.add_mod_left]
    exact Nat.mod_eq_of_lt (by omega)
  · rw [if_neg hc]
    have hlt : wl.tail + wl.qsize - (wl.head + 1) < wl.qsize := by omega
    rw [Nat.mod_eq_of_lt hlt]
    omega

theorem count_le (wl : worklist α) (hInv : Inv wl) :
    count wl ≤ wl.qsize - 2 := by
  have h := count_eq wl hInv
  obtain ⟨h3, hh, ht, hne⟩ := hInv
  rw [h]
  split <;> omega

theorem full_iff (wl : worklist α) (hInv : Inv wl) :
    full wl ↔ count wl = wl.qsize - 2 := by
  have hcount := count_eq wl hInv
  obtain ⟨h3, hh, ht, hne⟩ := hInv
  unfold full
  rw [hcount]
  by_cases he : wl.tail + 1 = wl.qsize
  · rw [he, Nat.mod_self]
    have hc : wl.head < wl.tail := by omega
    rw [if_pos hc]
    constructor <;> intro h0 <;> omega
  · have hlt : wl.tail + 1 < wl.qsize := by omega
    rw [Nat.mod_eq_of_lt hlt]
    rcases Nat.lt_or_ge wl.head wl.tail with hc | hc
    · rw [if_pos hc]
      constructor <;> intro h0 <;> omega
    · rw [if_neg (by omega)]
      constructor <;> intro h0 <;> omega

theorem empty_iff (wl : worklist α) (hInv : Inv wl) :
    empty wl ↔ count wl = 0 := by
  have hcount := count_eq wl hInv
  obtain ⟨h3, hh, ht, hne⟩ := hInv
  unfold empty
  rw [hcount]
  by_cases he : wl.head + 1 = wl.qsize
  · rw [he, Nat.mod_self]
    have hc : ¬ (wl.head < wl.tail) := by omega
    rw [if_neg hc]
    constructor <;> intro h0 <;> omega
  · have hlt : wl.head + 1 < wl.qsize := by omega
    rw [Nat.mod_eq_of_lt hlt]
    rcases Nat.lt_or_ge wl.head wl.tail with hc | hc
    · rw [if_pos hc]
      constructor <;> intro h0 <;> omega
    · rw [if_neg (by omega)]
      constructor <;> intro h0 <;> omega

theorem tail_eq_mod (wl : worklist α) (hInv : Inv wl) :
    (wl.head + 1 + count wl) % wl.qsize = wl.tail := by
  obtain ⟨h3, hh, ht, hne⟩ := hInv
  unfold count
  rw [Nat.add_mod_mod]
  have he : wl.head + 1 + (wl.tail + wl.qsize - (wl.head + 1))
      = wl.tail + wl.qsize := by omega
  rw [he, Nat.add_mod_right]
  exact Nat.mod_eq_of_lt ht

theorem index_ne_tail (wl : worklist α) (hInv : Inv wl) {i : Nat}
    (hi : i < count wl) :
    (wl.head + 1 + i) % wl.qsize ≠ wl.tail := by
  intro hEq
  have h0 : 0 < wl.qsize := by obtain ⟨h3, _, _, _⟩ := hInv; omega
  have hcnt : count wl < wl.qsize := count_lt wl h0
  rw [← tail_eq_mod wl hInv] at hEq
  have h2 : Nat.ModEq wl.qsize (wl.head + 1 + i) (wl.head + 1 + count wl) := hEq
  have h3 : Nat.ModEq wl.qsize i (count wl) :=
    Nat.ModEq.add_left_cancel' (wl.head + 1) h2
  have h4 : wl.qsize ∣ count wl - i := (Nat.modEq_iff_dvd' (Nat.le_of_lt hi)).mp h3
  have h5 : wl.qsize ≤ count wl - i := Nat.le_of_dvd (by omega) h4
  omega

/- ------------------------------------------------------------------
   Step lemmas for worklist_add / worklist_take
   ------------------------------------------------------------------ -/

theorem add_of_not_full (wl : worklist α) (a : α) (hf : ¬ full wl) :
    worklist_add wl a =
      { wl := { wl with
                queue := Function.update wl.queue wl.tail a
                tail := (wl.tail + 1) % wl.qsize }
        res := AddResult.ok
        fired := none
        trace := [LockEv.lockTail, LockEv.unlockTail] } := by
  have hf2 : ¬ ((wl.tail + 1) % wl.qsize = wl.head) := hf
  simp [worklist_add, hf2]

theorem add_wl_of_full (wl : worklist α) (a : α)
    (hf : full wl) : (worklist_add wl a).wl = addRegistered wl := by
  have hf2 : (wl.tail + 1) % wl.qsize = wl.head := hf
  by_cases hs : wl.status.stop = true <;> simp [worklist_add, hf2, hs]

theorem take_of_not_empty (wl : worklist α) (he : ¬ empty wl) :
    worklist_take wl =
      { wl := { wl with head := (wl.head + 1) % wl.qsize }
        res := TakeResult.got (wl.queue ((wl.head + 1) % wl.qsize))
        fired := none
        trace := [LockEv.lockHead, LockEv.unlockHead] } := by
  have he2 : ¬ ((wl.head + 1) % wl.qsize = wl.tail) := he
  simp [worklist_take, he2]

theorem take_wl_of_empty (wl : worklist α)
    (he : empty wl) : (worklist_take wl).wl = takeRegistered wl := by
  have he2 : (wl.head + 1) % wl.qsize = wl.tail := he
  by_cases hs : wl.status.stop = true <;> simp [worklist_take, he2, hs]

theorem take_res_of_empty_nostop (wl : worklist α)
    (he : empty wl) (hs : wl.status.stop = false) :
    (worklist_take wl).res = TakeResult.blocked := by
  have he2 : (wl.head + 1) % wl.qsize = wl.tail := he
  simp [worklist_take, he2, hs]

theorem add_qsize (wl : worklist α) (a : α) :
    (worklist_add wl a).wl.qsize = wl.qsize := by
  by_cases hf : full wl
  · rw [add_wl_of_full wl a hf]; rfl
  · rw [add_of_not_full wl a hf]

theorem add_stop (wl : worklist α) (a : α) :
    (worklist_add wl a).wl.status.stop = wl.status.stop := by
  by_cases hf : full wl
  · rw [add_wl_of_full wl a hf]; rfl
  · rw [add_of_not_full wl a hf]

theorem take_qsize (wl : worklist α) :
    (worklist_take wl).wl.qsize = wl.qsize := by
  by_cases he : empty wl
  · rw [take_wl_of_empty wl he]; rfl
  · rw [take_of_not_empty wl he]

theorem take_stop (wl : worklist α) :
    (worklist_take wl).wl.status.stop = wl.status.stop := by
  by_cases he : empty wl
  · rw [take_wl_of_empty wl he]; rfl
  · rw [take_of_not_empty wl he]

theorem toList_addRegistered (wl : worklist α) :
    toList (addRegistered wl) = toList wl := rfl

theorem toList_takeRegistered (wl : worklist α) :
    toList (takeRegistered wl) = toList wl := rfl

theorem add_Inv (wl : worklist α) (a : α) (hInv : Inv wl) :
    Inv (worklist_add wl a).wl := by
  by_cases hf : full wl
  · rw [add_wl_of_full wl a hf]; exact hInv
  · rw [add_of_not_full wl a hf]
    obtain ⟨h3, hh, ht, hne⟩ := hInv
    exact ⟨h3, hh, Nat.mod_lt _ (by omega), fun hEq => hf hEq.symm⟩

theorem take_Inv (wl : worklist α) (hInv : Inv wl) :
    Inv (worklist_take wl).wl := by
  by_cases he : empty wl
  · rw [take_wl_of_empty wl he]; exact hInv
  · rw [take_of_not_empty wl he]
    obtain ⟨h3, hh, ht, hne⟩ := hInv
    exact ⟨h3, Nat.mod_lt _ (by omega), ht, fun hEq => he hEq⟩

theorem count_add_succ (wl : worklist α) (hInv : Inv wl) (hf : ¬ full wl) :
    ((wl.tail + 1) % wl.qsize + wl.qsize - (wl.head + 1)) % wl.qsize
      = count wl + 1 := by
  have hle := count_le wl hInv
  have hfull := full_iff wl hInv
  have hc := count_eq wl hInv
  obtain ⟨h3, hh, ht, hne⟩ := hInv
  have hfne : (wl.tail + 1) % wl.qsize ≠ wl.head := hf
  by_cases he : wl.tail + 1 = wl.qsize
  · rw [he] at hfne ⊢
    rw [Nat.mod_self] at hfne ⊢
    rw [Nat.mod_eq_of_lt (by omega)]
    rw [hc, if_pos (by omega)]
    omega
  · have hlt : wl.tail + 1 < wl.qsize := by omega
    rw [Nat.mod_eq_of_lt hlt]
    have hx : wl.tail + 1 + wl.qsize - (wl.head + 1)
        = (wl.tail + wl.qsize - (wl.head + 1)) + 1 := by omega
    rw [hx, ← Nat.mod_add_mod]
    show (count wl + 1) % wl.qsize = count wl + 1
    have hne2 : count wl ≠ wl.qsize - 2 := fun hcc => hf (hfull.mpr hcc)
    exact Nat.mod_eq_of_lt (by omega)

theorem add_count (wl : worklist α) (a : α) (hInv : Inv wl) (hf : ¬ full wl) :
    count (worklist_add wl a).wl = count wl + 1 := by
  rw [add_of_not_full wl a hf]
  exact count_add_succ wl hInv hf

theorem add_toList (wl : worklist α) (a : α) (hInv : Inv wl) (hf : ¬ full wl) :
    toList (worklist_add wl a).wl = toList wl ++ [a] := by
  have hc := add_count wl a hInv hf
  rw [add_of_not_full wl a hf] at hc ⊢
  unfold toList
  rw [hc, List.range_succ, List.map_append]
  congr 1
  · apply List.map_congr_left
    intro i hi
    have hi2 : i < count wl := List.mem_range.mp hi
    have hne2 := index_ne_tail wl hInv hi2
    exact Function.update_noteq hne2 a wl.queue
  · simp only [List.map_cons, List.map_nil]
    rw [tail_eq_mod wl hInv, Function.update_same]

theorem count_take_pred (wl : worklist α) (hInv : Inv wl) (he : ¬ empty wl) :
    (wl.tail + wl.qsize - ((wl.head + 1) % wl.qsize + 1)) % wl.qsize
      = count wl - 1 := by
  have hcge : count wl ≠ 0 := fun h0 => he ((empty_iff wl hInv).mpr h0)
  have hc := count_eq wl hInv
  have hcl : count wl < wl.qsize := count_lt wl (by obtain ⟨h3, _, _, _⟩ := hInv; omega)
  obtain ⟨h3, hh, ht, hne⟩ := hInv
  by_cases hq : wl.head + 1 = wl.qsize
  · have hmod : (wl.head + 1) % wl.qsize = 0 := by rw [hq]; exact Nat.mod_self _
    rw [hmod]
    have hte : ¬ (wl.head < wl.tail) := by omega
    rw [hc, if_neg hte] at hcge ⊢
    have hx : wl.tail + wl.qsize - (0 + 1)
        = (wl.tail + wl.qsize - wl.head - 1 - 1) + wl.qsize := by omega
    rw [hx, Nat.add_mod_right]
    exact Nat.mod_eq_of_lt (by omega)
  · have hlt : wl.head + 1 < wl.qsize := by omega
    rw [Nat.mod_eq_of_lt hlt]
    have hx : wl.tail + wl.qsize - (wl.head + 1 + 1)
        = (wl.tail + wl.qsize - (wl.head + 1)) - 1 := by omega
    rw [hx]
    have hdm := Nat.div_add_mod (wl.tail + wl.qsize - (wl.head + 1)) wl.qsize
    have hcnt : (wl.tail + wl.qsize - (wl.head + 1)) % wl.qsize = count wl := rfl
    rw [hcnt] at hdm
    have hx2 : (wl.tail + wl.qsize - (wl.head + 1)) - 1
        = wl.qsize * ((wl.tail + wl.qsize - (wl.head + 1)) / wl.qsize)
          + (count wl - 1) := by omega
    rw [hx2, Nat.mul_add_mod]
    exact Nat.mod_eq_of_lt (by omega)

theorem take_count (wl : worklist α) (hInv : Inv wl) (he : ¬ empty wl) :
    count (worklist_take wl).wl = count wl - 1 := by
  rw [take_of_not_empty wl he]
  exact count_take_pred wl hInv he

theorem take_toList (wl : worklist α) (hInv : Inv wl) (he : ¬ empty wl) :
    toList wl = wl.queue ((wl.head + 1) % wl.qsize)
                  :: toList (worklist_take wl).wl := by
  have hcge : count wl ≠ 0 := fun h0 => he ((empty_iff wl hInv).mpr h0)
  have hc := take_count wl hInv he
  rw [take_of_not_empty wl he] at hc ⊢
  unfold toList
  rw [hc]
  have hsplit : count wl = (count wl - 1) + 1 := by omega
  rw [hsplit, List.range_succ_eq_map]
  simp only [List.map_cons, List.map_map]
  congr 1
  apply List.map_congr_left
  intro i _
  simp only [Function.comp_apply]
  have hidx : ((wl.head + 1) % wl.qsize + 1 + i) % wl.qsize
      = (wl.head + 1 + Nat.succ i) % wl.qsize := by
    rw [Nat.add_assoc, Nat.mod_add_mod]
    congr 1
    omega
  rw [hidx]

/- ------------------------------------------------------------------
   Run-level lemmas
   ------------------------------------------------------------------ -/

theorem ringRun_inv (ops : List (Op α)) (wl : worklist α) (hInv : Inv wl) :
    Inv (ringRun wl ops).1 ∧ (ringRun wl ops).1.qsize = wl.qsize ∧
    (ringRun wl ops).1.status.stop = wl.status.stop := by
  induction ops generalizing wl with
  | nil => exact ⟨hInv, rfl, rfl⟩
  | cons op ops ih =>
    cases op with
    | add a =>
      have h := ih (worklist_add wl a).wl (add_Inv wl a hInv)
      simp only [ringRun]
      exact ⟨h.1, h.2.1.trans (add_qsize wl a), h.2.2.trans (add_stop wl a)⟩
    | take =>
      have h := ih (worklist_take wl).wl (take_Inv wl hInv)
      have hq := take_qsize wl
      have hs := take_stop wl
      simp only [ringRun]
      cases hres : (worklist_take wl).res with
      | got x => exact ⟨h.1, h.2.1.trans hq, h.2.2.trans hs⟩
      | stopped => exact ⟨h.1, h.2.1.trans hq, h.2.2.trans hs⟩
      | blocked => exact ⟨h.1, h.2.1.trans hq, h.2.2.trans hs⟩

/- ------------------------------------------------------------------
   Claim theorems
   ------------------------------------------------------------------ -/

/-- Claim C1 (FIFO order / refinement).  For every sequence of add and
take operations executed without an intervening stop, the items
returned by take, in order, are exactly the items the abstract bounded
FIFO queue over lists (capacity `qsize - 2`) returns, and the final
ring contents agree with the final abstract queue: the ring buffer with
sentinel indices refines the bounded FIFO queue. -/
theorem worklist_refines_fifo (ops : List (Op α)) (wl : worklist α)
    (hInv : Inv wl) (hstop : wl.status.stop = false) :
    (ringRun wl ops).2 = (fifoRun (wl.qsize - 2) (toList wl) ops).2 ∧
    toList (ringRun wl ops).1 = (fifoRun (wl.qsize - 2) (toList wl) ops).1 := by
  induction ops generalizing wl with
  | nil => exact ⟨rfl, rfl⟩
  | cons op ops ih =>
    cases op with
    | add a =>
      by_cases hf : full wl
      · have hlen : ¬ ((toList wl).length < wl.qsize - 2) := by
          rw [toList_length]
          have := (full_iff wl hInv).mp hf
          omega
        have hwl : (worklist_add wl a).wl = addRegistered wl := add_wl_of_full wl a hf
        have ihh := ih (addRegistered wl) hInv hstop
        have e1 : (addRegistered wl).qsize = wl.qsize := rfl
        have e2 : toList (addRegistered wl) = toList wl := rfl
        rw [e1, e2] at ihh
        simp only [ringRun, fifoRun, hwl]
        rw [if_neg hlen]
        exact ihh
      · have hlen : (toList wl).length < wl.qsize - 2 := by
          rw [toList_length]
          have h1 := count_le wl hInv
          have h2 : count wl ≠ wl.qsize - 2 := fun hcc => hf ((full_iff wl hInv).mpr hcc)
          omega
        have hInv2 := add_Inv wl a hInv
        have hstop2 : (worklist_add wl a).wl.status.stop = false :=
          (add_stop wl a).trans hstop
        have ihh := ih (worklist_add wl a).wl hInv2 hstop2
        rw [add_qsize wl a, add_toList wl a hInv hf] at ihh
        simp only [ringRun, fifoRun]
        rw [if_pos hlen]
        exact ihh
    | take =>
      by_cases he : empty wl
      · have hnil : toList wl = [] := by
          have h0 : count wl = 0 := (empty_iff wl hInv).mp he
          unfold toList
          rw [h0]
          rfl
        have hres := take_res_of_empty_nostop wl he hstop
        have hwl : (worklist_take wl).wl = takeRegistered wl := take_wl_of_empty wl he
        have ihh := ih (takeRegistered wl) hInv hstop
        have e1 : (takeRegistered wl).qsize = wl.qsize := rfl
        have e2 : toList (takeRegistered wl) = toList wl := rfl
        rw [e1, e2, hnil] at ihh
        simp only [ringRun, fifoRun]
        rw [hres, hnil, hwl]
        exact ihh
      · have hres : (worklist_take wl).res
            = TakeResult.got (wl.queue ((wl.head + 1) % wl.qsize)) := by
          rw [take_of_not_empty wl he]
        have htl := take_toList wl hInv he
        have hInv2 := take_Inv wl hInv
        have hstop2 : (worklist_take wl).wl.status.stop = false :=
          (take_stop wl).trans hstop
        have ihh := ih (worklist_take wl).wl hInv2 hstop2
        rw [take_qsize wl] at ihh
        simp only [ringRun, fifoRun]
        rw [hres, htl]
        exact ⟨by rw [ihh.1], ihh.2⟩

/-- Concrete witness for `worklist_refines_fifo`: a capacity-1 worklist
run through two adds (the second one is refused: the ring is full) and
two takes; the outputs match the abstract FIFO and equal `[5]`. -/
theorem worklist_refines_fifo_witness :
    Inv (worklist_init 1 ⟨true, 1, 10, 20⟩ (fun _ => (0 : Nat))) ∧
    (worklist_init 1 ⟨true, 1, 10, 20⟩ (fun _ => (0 : Nat))).status.stop = false ∧
    ((ringRun (worklist_init 1 ⟨true, 1, 10, 20⟩ (fun _ => (0 : Nat)))
        [Op.add 5, Op.add 6, Op.take, Op.take]).2
      = (fifoRun ((worklist_init 1 ⟨true, 1, 10, 20⟩ (fun _ => (0 : Nat))).qsize - 2)
          (toList (worklist_init 1 ⟨true, 1, 10, 20⟩ (fun _ => (0 : Nat))))
          [Op.add 5, Op.add 6, Op.take, Op.take]).2 ∧
     toList (ringRun (worklist_init 1 ⟨true, 1, 10, 20⟩ (fun _ => (0 : Nat)))
        [Op.add 5, Op.add 6, Op.take, Op.take]).1
      = (fifoRun ((worklist_init 1 ⟨true, 1, 10, 20⟩ (fun _ => (0 : Nat))).qsize - 2)
          (toList (worklist_init 1 ⟨true, 1, 10, 20⟩ (fun _ => (0 : Nat))))
          [Op.add 5, Op.add 6, Op.take, Op.take]).1) ∧
    (ringRun (worklist_init 1 ⟨true, 1, 10, 20⟩ (fun _ => (0 : Nat)))
        [Op.add 5, Op.add 6, Op.take, Op.take]).2 = [5] :=
  ⟨by decide, rfl,
   worklist_refines_fifo [Op.add 5, Op.add 6, Op.take, Op.take]
     (worklist_init 1 ⟨true, 1, 10, 20⟩ (fun _ => (0 : Nat))) (by decide) rfl,
   by decide⟩

/-- Claim C2 (capacity bound).  A worklist initialized with a nonzero
capacity `size` has `qsize = size + 2`, and after any sequence of add
and take operations the number of stored items
`(tail - head - 1) mod qsize` never exceeds `size`: add refuses to
write while the full predicate holds, and the two sentinel slots keep
full and empty distinguishable. -/
theorem worklist_capacity_bound (size : Nat) (attr : worklist_attr α)
    (q0 : Nat → α) (ops : List (Op α)) (hs : size ≠ 0) :
    (worklist_init size attr q0).qsize = size + 2 ∧
    count ((ringRun (worklist_init size attr q0) ops).1) ≤ size := by
  have hq : (worklist_init size attr q0).qsize = size + 2 := by
    unfold worklist_init
    simp [hs]
  have hInv : Inv (worklist_init size attr q0) := by
    unfold Inv worklist_init
    simp [hs]
    omega
  obtain ⟨hI, hqs, _⟩ := ringRun_inv ops _ hInv
  have hle := count_le _ hI
  rw [hqs, hq] at hle
  exact ⟨hq, by omega⟩

/-- Concrete witness for `worklist_capacity_bound`: capacity 1, two
adds (the second refused because the ring is full); the stored count is
exactly 1. -/
theorem worklist_capacity_bound_witness :
    (1 : Nat) ≠ 0 ∧
    ((worklist_init 1 ⟨true, 1, 10, 20⟩ (fun _ => (0 : Nat))).qsize = 1 + 2 ∧
     count ((ringRun (worklist_init 1 ⟨true, 1, 10, 20⟩ (fun _ => (0 : Nat)))
        [Op.add 5, Op.add 6]).1) ≤ 1) ∧
    count ((ringRun (worklist_init 1 ⟨true, 1, 10, 20⟩ (fun _ => (0 : Nat)))
        [Op.add 5, Op.add 6]).1) = 1 :=
  ⟨by decide,
   worklist_capacity_bound 1 ⟨true, 1, 10, 20⟩ (fun _ => (0 : Nat))
     [Op.add 5, Op.add 6] (by decide),
   by decide⟩

/-- Claim C10 (implicit sentinel invariant).  For a worklist with
`qsize ≥ 3` and distinct sentinels, distinctness holds after init and
reset and is preserved by every add and take (add moves tail only when
the full predicate is false, take moves head only when the empty
predicate is false); consequently the empty and full predicates never
hold simultaneously. -/
theorem sentinel_invariant [Inhabited α] (size : Nat)
    (attr : worklist_attr α) (q0 : Nat → α) (wl : worklist α) (a : α)
    (hq : 3 ≤ wl.qsize) (hne : wl.head ≠ wl.tail) :
    (worklist_init size attr q0).head ≠ (worklist_init size attr q0).tail ∧
    (worklist_reset wl).head ≠ (worklist_reset wl).tail ∧
    (worklist_add wl a).wl.head ≠ (worklist_add wl a).wl.tail ∧
    (worklist_take wl).wl.head ≠ (worklist_take wl).wl.tail ∧
    ¬ (empty wl ∧ full wl) := by
  refine ⟨Nat.zero_ne_one, Nat.zero_ne_one, ?_, ?_, ?_⟩
  · by_cases hf : full wl
    · rw [add_wl_of_full wl a hf]
      exact hne
    · rw [add_of_not_full wl a hf]
      exact fun hEq => hf hEq.symm
  · by_cases he : empty wl
    · rw [take_wl_of_empty wl he]
      exact hne
    · rw [take_of_not_empty wl he]
      exact fun hEq => he hEq
  · rintro ⟨hE, hF⟩
    unfold empty at hE
    unfold full at hF
    have h1 : (wl.head + 2) % wl.qsize = wl.head := by
      calc (wl.head + 2) % wl.qsize
          = ((wl.head + 1) % wl.qsize + 1) % wl.qsize := by
            rw [Nat.mod_add_mod]
        _ = (wl.tail + 1) % wl.qsize := by rw [hE]
        _ = wl.head := hF
    have hdm := Nat.div_add_mod (wl.head + 2) wl.qsize
    rw [h1] at hdm
    have hmul : wl.qsize * ((wl.head + 2) / wl.qsize) = 2 := by omega
    have hdvd : wl.qsize ∣ 2 := ⟨(wl.head + 2) / wl.qsize, hmul.symm⟩
    have := Nat.le_of_dvd (by omega) hdvd
    omega

/-- Concrete witness for `sentinel_invariant` at a capacity-1 worklist
with `qsize = 3`, `head = 0`, `tail = 1`. -/
theorem sentinel_invariant_witness :
    3 ≤ (3 : Nat) ∧ (0 : Nat) ≠ 1 ∧
    ((worklist_init 1 ⟨true, 1, 10, 20⟩ (fun _ => (0 : Nat))).head
        ≠ (worklist_init 1 ⟨true, 1, 10, 20⟩ (fun _ => (0 : Nat))).tail ∧
     (worklist_reset (⟨fun _ => (0 : Nat), 0, 1, 3, ⟨false, 0, 0⟩, none⟩ : worklist Nat)).head
        ≠ (worklist_reset (⟨fun _ => (0 : Nat), 0, 1, 3, ⟨false, 0, 0⟩, none⟩ : worklist Nat)).tail ∧
     (worklist_add (⟨fun _ => (0 : Nat), 0, 1, 3, ⟨false, 0, 0⟩, none⟩ : worklist Nat) 7).wl.head
        ≠ (worklist_add (⟨fun _ => (0 : Nat), 0, 1, 3, ⟨false, 0, 0⟩, none⟩ : worklist Nat) 7).wl.tail ∧
     (worklist_take (⟨fun _ => (0 : Nat), 0, 1, 3, ⟨false, 0, 0⟩, none⟩ : worklist Nat)).wl.head
        ≠ (worklist_take (⟨fun _ => (0 : Nat), 0, 1, 3, ⟨false, 0, 0⟩, none⟩ : worklist Nat)).wl.tail ∧
     ¬ (empty (⟨fun _ => (0 : Nat), 0, 1, 3, ⟨false, 0, 0⟩, none⟩ : worklist Nat)
         ∧ full (⟨fun _ => (0 : Nat), 0, 1, 3, ⟨false, 0, 0⟩, none⟩ : worklist Nat))) :=
  ⟨by decide, by decide,
   sentinel_invariant 1 ⟨true, 1, 10, 20⟩ (fun _ => (0 : Nat))
     (⟨fun _ => (0 : Nat), 0, 1, 3, ⟨false, 0, 0⟩, none⟩ : worklist Nat) 7
     (by decide) (by decide)⟩

/-- Claim C3 counterexample.  A freshly initialized capacity-1 worklist
whose stop flag has been set by `worklist_stop` is not full, so
`worklist_add` succeeds (returns 0) and advances the tail index — the
stop check sits inside the full-wait loop only, contradicting the claim
that every add on a stopped worklist fails and leaves the tail
unchanged. -/
theorem add_when_stopped_succeeds_counterexample :
    (worklist_stop (worklist_init 1 ⟨true, 1, 10, 20⟩
        (fun _ => (0 : Nat)))).status.stop = true ∧
    (worklist_add (worklist_stop (worklist_init 1 ⟨true, 1, 10, 20⟩
        (fun _ => (0 : Nat)))) 5).res = AddResult.ok ∧
    (worklist_add (worklist_stop (worklist_init 1 ⟨true, 1, 10, 20⟩
        (fun _ => (0 : Nat)))) 5).wl.tail = 2 ∧
    (worklist_stop (worklist_init 1 ⟨true, 1, 10, 20⟩
        (fun _ => (0 : Nat)))).tail = 1 :=
  ⟨rfl, rfl, rfl, rfl⟩

/-- Claim C3 (amended).  When the stop flag is set and the ring is
full — stop is observed while the producer is parked or about to
park — `worklist_add` fails with the Stopped error (-1) and leaves the
queue contents, the tail index and the head index unchanged; when the
ring is not full, add succeeds even with stop set. -/
theorem add_stopped_full_fails (wl : worklist α) (a : α)
    (hstop : wl.status.stop = true) (hf : full wl) :
    (worklist_add wl a).res = AddResult.stopped ∧
    (worklist_add wl a).wl.queue = wl.queue ∧
    (worklist_add wl a).wl.tail = wl.tail ∧
    (worklist_add wl a).wl.head = wl.head := by
  have hf2 : (wl.tail + 1) % wl.qsize = wl.head := hf
  simp [worklist_add, hf2, hstop, addRegistered]

/-- Concrete witness for `add_stopped_full_fails`: a stopped, full
worklist with `qsize = 3`, `head = 0`, `tail = 2`. -/
theorem add_stopped_full_fails_witness :
    (⟨fun _ => (0 : Nat), 0, 2, 3, ⟨true, 0, 0⟩,
        some ⟨true, 1, 10, 20⟩⟩ : worklist Nat).status.stop = true ∧
    full (⟨fun _ => (0 : Nat), 0, 2, 3, ⟨true, 0, 0⟩,
        some ⟨true, 1, 10, 20⟩⟩ : worklist Nat) ∧
    ((worklist_add (⟨fun _ => (0 : Nat), 0, 2, 3, ⟨true, 0, 0⟩,
        some ⟨true, 1, 10, 20⟩⟩ : worklist Nat) 5).res = AddResult.stopped ∧
     (worklist_add (⟨fun _ => (0 : Nat), 0, 2, 3, ⟨true, 0, 0⟩,
        some ⟨true, 1, 10, 20⟩⟩ : worklist Nat) 5).wl.queue
        = (⟨fun _ => (0 : Nat), 0, 2, 3, ⟨true, 0, 0⟩,
            some ⟨true, 1, 10, 20⟩⟩ : worklist Nat).queue ∧
     (worklist_add (⟨fun _ => (0 : Nat), 0, 2, 3, ⟨true, 0, 0⟩,
        some ⟨true, 1, 10, 20⟩⟩ : worklist Nat) 5).wl.tail
        = (⟨fun _ => (0 : Nat), 0, 2, 3, ⟨true, 0, 0⟩,
            some ⟨true, 1, 10, 20⟩⟩ : worklist Nat).tail ∧
     (worklist_add (⟨fun _ => (0 : Nat), 0, 2, 3, ⟨true, 0, 0⟩,
        some ⟨true, 1, 10, 20⟩⟩ : worklist Nat) 5).wl.head
        = (⟨fun _ => (0 : Nat), 0, 2, 3, ⟨true, 0, 0⟩,
            some ⟨true, 1, 10, 20⟩⟩ : worklist Nat).head) :=
  ⟨rfl, by decide,
   add_stopped_full_fails
     (⟨fun _ => (0 : Nat), 0, 2, 3, ⟨true, 0, 0⟩,
        some ⟨true, 1, 10, 20⟩⟩ : worklist Nat) 5 rfl (by decide)⟩

/-- Claim C4 (code bug in src/worklist.c).  On a full ring with the
attr present (trigger set, concurrency 1), hthpool.c's `worklist_add`
increments `adding` to 1 and invokes `full_event` as the claim states,
but worklist.c's `worklist_add` — whose guard reads `!wl->attr` where
its own comments require the event to fire when the attr is
defined — skips the registration entirely: no increment, no callback;
and with `attr == NULL` it dereferences NULL while evaluating
`wl->attr->concurrency`. -/
theorem worklistc_event_guard_inverted :
    (worklist_add (⟨fun _ => (0 : Nat), 0, 2, 3, ⟨false, 0, 0⟩,
        some ⟨true, 1, 10, 20⟩⟩ : worklist Nat) 7).fired = some 20 ∧
    (worklist_add (⟨fun _ => (0 : Nat), 0, 2, 3, ⟨false, 0, 0⟩,
        some ⟨true, 1, 10, 20⟩⟩ : worklist Nat) 7).wl.status.adding = 1 ∧
    (worklist_add (⟨fun _ => (0 : Nat), 0, 2, 3, ⟨false, 0, 0⟩,
        some ⟨true, 1, 10, 20⟩⟩ : worklist Nat) 7).res = AddResult.blocked ∧
    (WorklistC.worklist_add (⟨fun _ => (0 : Nat), 0, 2, 3, ⟨false, 0, 0⟩,
        some ⟨true, 1, 10, 20⟩⟩ : worklist Nat) 7).fired = none ∧
    (WorklistC.worklist_add (⟨fun _ => (0 : Nat), 0, 2, 3, ⟨false, 0, 0⟩,
        some ⟨true, 1, 10, 20⟩⟩ : worklist Nat) 7).wl.status.adding = 0 ∧
    (WorklistC.worklist_add (⟨fun _ => (0 : Nat), 0, 2, 3, ⟨false, 0, 0⟩,
        some ⟨true, 1, 10, 20⟩⟩ : worklist Nat) 7).res
        = WorklistC.AddResult.blocked ∧
    (WorklistC.worklist_add (⟨fun _ => (0 : Nat), 0, 2, 3, ⟨false, 0, 0⟩,
        none⟩ : worklist Nat) 7).res = WorklistC.AddResult.nullDeref :=
  ⟨rfl, rfl, rfl, rfl, rfl, rfl, rfl⟩

/-- Claim C5 (code bug).  `hthpool_init` assigns `stopped_threads`,
`blocked_threads` and `close` but never writes the pool's `stop` field;
its value is whatever the allocation left there.  With nonzero garbage
in that word, a handle is returned on which `stop` already reads true,
so a worker entering its loop parks before any stop was issued. -/
theorem init_stop_field_uninitialized :
    ((getHandle (hthpool_init 1 (10 : Nat) 20
        ⟨true, true, true, true, true, true, true, true⟩
        (fun _ => 0))).map (fun p => p.stop) = some true) ∧
    ((getHandle (hthpool_init 1 (10 : Nat) 20
        ⟨true, true, true, true, true, true, true, true⟩
        (fun _ => 0))).map (fun p => p.stopped_threads) = some 0) ∧
    ((getHandle (hthpool_init 1 (10 : Nat) 20
        ⟨true, true, true, true, true, true, true, true⟩
        (fun _ => 0))).map (fun p => p.blocked_threads) = some 0) ∧
    ((getHandle (hthpool_init 1 (10 : Nat) 20
        ⟨true, true, true, true, true, true, true, true⟩
        (fun _ => 0))).map (fun p => p.close) = some false) :=
  ⟨rfl, rfl, rfl, rfl⟩

/-- Claim C6 (code bug).  `hthpool_init` only rejects `num < 0`, so
`N = 0` passes the check and (all environment steps succeeding) a
handle to a zero-thread pool is returned instead of an InvalidArg
failure; a failed pool allocation terminates the process
(exit(EXIT_FAILURE)) instead of returning an error kind; only `N < 0`
yields the NULL return. -/
theorem init_accepts_zero_threads :
    (getHandle (hthpool_init 0 (10 : Nat) 20
        ⟨true, true, true, true, true, true, true, false⟩
        (fun _ => 0))).isSome = true ∧
    hthpool_init 1 (10 : Nat) 20
        ⟨false, true, true, true, true, true, true, false⟩
        (fun _ => (0 : Nat)) = InitOutcome.exitFailure ∧
    hthpool_init (-1) (10 : Nat) 20
        ⟨true, true, true, true, true, true, true, false⟩
        (fun _ => (0 : Nat)) = InitOutcome.nullHandle :=
  ⟨rfl, rfl, rfl⟩

/-- Claim C7 counterexample.  On a pool immediately after create (no
submissions, worklist stop flag false), `hthpool_destroy` leaves the
worklist stop flag false — it issues no hard stop before joining — while
`hthpool_hard_stop` on the same pool would set it. -/
theorem destroy_no_hard_stop_counterexample :
    (hthpool_destroy (⟨worklist_init 1 ⟨true, 1, 10, 20⟩ (fun _ => (0 : Nat)),
        1, 0, 0, false, false, 10, 20⟩ : hthpool Nat)).wl.status.stop = false ∧
    (hthpool_destroy (⟨worklist_init 1 ⟨true, 1, 10, 20⟩ (fun _ => (0 : Nat)),
        1, 0, 0, false, false, 10, 20⟩ : hthpool Nat)).close = true ∧
    (hthpool_hard_stop (⟨worklist_init 1 ⟨true, 1, 10, 20⟩ (fun _ => (0 : Nat)),
        1, 0, 0, false, false, 10, 20⟩ : hthpool Nat)).wl.status.stop = true :=
  ⟨rfl, rfl, rfl⟩

/-- Claim C7 (amended).  `hthpool_destroy` does not issue a hard stop:
before joining it only sets `close` and `blocked_threads = thread_num`
(and broadcasts `cond_allow_go`), leaving the worklist — including its
stop flag — and the pool stop flag unchanged; per the header, the host
must have parked the workers (a stop followed by `hthpool_wait`) before
calling destroy. -/
theorem destroy_only_sets_close_and_blocked (p : hthpool α) :
    (hthpool_destroy p).wl = p.wl ∧
    (hthpool_destroy p).close = true ∧
    (hthpool_destroy p).blocked_threads = p.thread_num ∧
    (hthpool_destroy p).stop = p.stop ∧
    (hthpool_destroy p).wl.status.stop = p.wl.status.stop :=
  ⟨rfl, rfl, rfl, rfl, rfl⟩

/-- Concrete witness for `destroy_only_sets_close_and_blocked`. -/
theorem destroy_only_sets_close_and_blocked_witness :
    (hthpool_destroy (⟨worklist_init 1 ⟨true, 2, 11, 21⟩ (fun _ => (0 : Nat)),
        2, 0, 0, false, false, 11, 21⟩ : hthpool Nat)).wl
      = (⟨worklist_init 1 ⟨true, 2, 11, 21⟩ (fun _ => (0 : Nat)),
          2, 0, 0, false, false, 11, 21⟩ : hthpool Nat).wl ∧
    (hthpool_destroy (⟨worklist_init 1 ⟨true, 2, 11, 21⟩ (fun _ => (0 : Nat)),
        2, 0, 0, false, false, 11, 21⟩ : hthpool Nat)).close = true ∧
    (hthpool_destroy (⟨worklist_init 1 ⟨true, 2, 11, 21⟩ (fun _ => (0 : Nat)),
        2, 0, 0, false, false, 11, 21⟩ : hthpool Nat)).blocked_threads
      = (⟨worklist_init 1 ⟨true, 2, 11, 21⟩ (fun _ => (0 : Nat)),
          2, 0, 0, false, false, 11, 21⟩ : hthpool Nat).thread_num ∧
    (hthpool_destroy (⟨worklist_init 1 ⟨true, 2, 11, 21⟩ (fun _ => (0 : Nat)),
        2, 0, 0, false, false, 11, 21⟩ : hthpool Nat)).stop
      = (⟨worklist_init 1 ⟨true, 2, 11, 21⟩ (fun _ => (0 : Nat)),
          2, 0, 0, false, false, 11, 21⟩ : hthpool Nat).stop ∧
    (hthpool_destroy (⟨worklist_init 1 ⟨true, 2, 11, 21⟩ (fun _ => (0 : Nat)),
        2, 0, 0, false, false, 11, 21⟩ : hthpool Nat)).wl.status.stop
      = (⟨worklist_init 1 ⟨true, 2, 11, 21⟩ (fun _ => (0 : Nat)),
          2, 0, 0, false, false, 11, 21⟩ : hthpool Nat).wl.status.stop :=
  destroy_only_sets_close_and_blocked
    (⟨worklist_init 1 ⟨true, 2, 11, 21⟩ (fun _ => (0 : Nat)),
        2, 0, 0, false, false, 11, 21⟩ : hthpool Nat)

/-- Claim C8 (code bug).  After create with events (10, 20), a
`hthpool_register (11, 21)` followed by `hthpool_continue` updates only
the pool-struct fields: the worklist attr block — the one `add`/`take`
actually read their callbacks from — still carries the init-time
events, and a saturated add after continue invokes 20, not the newly
registered 21. -/
theorem register_after_init_not_propagated :
    (((getHandle (hthpool_init 1 (10 : Nat) 20
          ⟨true, true, true, true, true, true, true, false⟩ (fun _ => 0))).map
        (fun p => hthpool_continue (hthpool_register p 11 21))).map
        (fun p => p.full_event) = some 21) ∧
    (((getHandle (hthpool_init 1 (10 : Nat) 20
          ⟨true, true, true, true, true, true, true, false⟩ (fun _ => 0))).map
        (fun p => hthpool_continue (hthpool_register p 11 21))).map
        (fun p => p.empty_event) = some 11) ∧
    (((getHandle (hthpool_init 1 (10 : Nat) 20
          ⟨true, true, true, true, true, true, true, false⟩ (fun _ => 0))).map
        (fun p => hthpool_continue (hthpool_register p 11 21))).map
        (fun p => p.wl.attr.map (fun a => a.full_event)) = some (some 20)) ∧
    (((getHandle (hthpool_init 1 (10 : Nat) 20
          ⟨true, true, true, true, true, true, true, false⟩ (fun _ => 0))).map
        (fun p => hthpool_continue (hthpool_register p 11 21))).map
        (fun p => p.wl.attr.map (fun a => a.empty_event)) = some (some 10)) ∧
    (((getHandle (hthpool_init 1 (10 : Nat) 20
          ⟨true, true, true, true, true, true, true, false⟩ (fun _ => 0))).map
        (fun p => hthpool_continue (hthpool_register p 11 21))).map
        (fun p => (worklist_add { p.wl with head := 0, tail := 4095 } 7).fired)
      = some (some 20)) :=
  ⟨rfl, rfl, rfl, rfl, rfl⟩

/-- Claim C9 counterexample.  On a full, stopped worklist with
concurrency 1 and trigger set, hthpool.c's `worklist_add` invokes
`full_event` (fired = some 20), but its lock trace is
release-tail, call, reacquire-tail: the head mutex is never taken, so
the claimed release-own/acquire-opposite discipline fails. -/
theorem full_event_without_head_mutex_counterexample :
    (worklist_add (⟨fun _ => (0 : Nat), 0, 2, 3, ⟨true, 0, 0⟩,
        some ⟨true, 1, 10, 20⟩⟩ : worklist Nat) 7).fired = some 20 ∧
    oppositeHeldAtCalls (false, false)
      (worklist_add (⟨fun _ => (0 : Nat), 0, 2, 3, ⟨true, 0, 0⟩,
          some ⟨true, 1, 10, 20⟩⟩ : worklist Nat) 7).trace = false ∧
    (worklist_add (⟨fun _ => (0 : Nat), 0, 2, 3, ⟨true, 0, 0⟩,
        some ⟨true, 1, 10, 20⟩⟩ : worklist Nat) 7).trace
      = [LockEv.lockTail, LockEv.unlockTail, LockEv.callFullEvent,
         LockEv.lockTail, LockEv.unlockTail] :=
  ⟨rfl, rfl, rfl⟩

theorem neither_held_add (wl : worklist α) (a : α) :
    neitherHeldAtCalls (false, false) (worklist_add wl a).trace = true := by
  by_cases hg : full wl
  · have hg2 : (wl.tail + 1) % wl.qsize = wl.head := hg
    cases hs : wl.status.stop <;> cases haf : addFired wl <;>
      simp [worklist_add, hg2, hs, addEvTrace, haf,
            neitherHeldAtCalls, stepLock]
  · have hg2 : ¬ ((wl.tail + 1) % wl.qsize = wl.head) := hg
    simp [worklist_add, hg2, neitherHeldAtCalls, stepLock]

theorem neither_held_take (wl : worklist α) :
    neitherHeldAtCalls (false, false) (worklist_take wl).trace = true := by
  by_cases hg : empty wl
  · have hg2 : (wl.head + 1) % wl.qsize = wl.tail := hg
    cases hs : wl.status.stop <;> cases htf : takeFired wl <;>
      simp [worklist_take, hg2, hs, takeEvTrace, htf,
            neitherHeldAtCalls, stepLock]
  · have hg2 : ¬ ((wl.head + 1) % wl.qsize = wl.tail) := hg
    simp [worklist_take, hg2, neitherHeldAtCalls, stepLock]

/-- Claim C9 (amended).  In hthpool.c's `worklist_add`/`worklist_take`
the saturation event is invoked with the caller's own mutex released
and neither mutex held (release-own, call, reacquire-own); the
release-own/acquire-opposite/call/release-opposite/reacquire-own
sequence the claim describes appears in the source only in worklist.c's
event handoff block. -/
theorem saturation_event_lock_discipline (wl : worklist α) (a : α) :
    neitherHeldAtCalls (false, false) (worklist_add wl a).trace = true ∧
    neitherHeldAtCalls (false, false) (worklist_take wl).trace = true ∧
    oppositeHeldAtCalls (false, false) WorklistC.fullEventHandoffTrace = true ∧
    oppositeHeldAtCalls (false, false) WorklistC.emptyEventHandoffTrace = true :=
  ⟨neither_held_add wl a, neither_held_take wl, rfl, rfl⟩

/-- Concrete witness for `saturation_event_lock_discipline` at a full,
stopped worklist on which the full event actually fires. -/
theorem saturation_event_lock_discipline_witness :
    neitherHeldAtCalls (false, false)
      (worklist_add (⟨fun _ => (0 : Nat), 1, 0, 3, ⟨true, 0, 0⟩,
          some ⟨true, 1, 30, 40⟩⟩ : worklist Nat) 7).trace = true ∧
    neitherHeldAtCalls (false, false)
      (worklist_take (⟨fun _ => (0 : Nat), 1, 0, 3, ⟨true, 0, 0⟩,
          some ⟨true, 1, 30, 40⟩⟩ : worklist Nat)).trace = true ∧
    oppositeHeldAtCalls (false, false) WorklistC.fullEventHandoffTrace = true ∧
    oppositeHeldAtCalls (false, false) WorklistC.emptyEventHandoffTrace = true :=
  saturation_event_lock_discipline
    (⟨fun _ => (0 : Nat), 1, 0, 3, ⟨true, 0, 0⟩,
        some ⟨true, 1, 30, 40⟩⟩ : worklist Nat) 7

end Hthpool

